import Mathlib

/-!
Shallow embedding of the configuration resolution engine in
`src/lab/configs/parser.py` (the hierarchy collector `_get_base_classes`,
the `Parser` merge pass, calculator registration and
`__calculate_missing_values`), together with theorems settling the claims
about it.

Python dictionaries are modelled as association lists with Python's
assignment semantics (an existing key keeps its position, its value is
replaced; a new key is appended at the end).  Assertion failures and the
fatal resolution error are modelled with `Except String`.
-/

/-- An annotated type, as stored in `Parser.types`.  The parser only ever
asks whether the stored object is a plain class (`type(x) == type`) and
passes it along, so a class is abstracted by its name.  `generic` stands
for any non-class annotated object (e.g. a `typing` generic alias). -/
inductive Ann where
  | cls (name : String)
  | generic (tag : String)
  deriving DecidableEq

/-- A Python value as far as the parser observes it: `none` is the `None`
singleton (tested by `is not None`), the remaining constructors carry
enough to compute `type(v)`.  `vcls` is a class used as a value, `vobj` an
arbitrary instance tagged with the name of its class. -/
inductive PyVal where
  | none
  | vint (n : Int)
  | vstr (s : String)
  | vbool (b : Bool)
  | vcls (name : String)
  | vobj (tyName : String)
  deriving DecidableEq

/-- Computes `type(v)` for a value: always a plain class.  (Instances of
classes with custom metaclasses are not modelled.) -/
def pyTypeOf : PyVal → Ann
  | .none => .cls ("NoneType")
  | .vint _ => .cls ("Int")
  | .vstr _ => .cls ("Str")
  | .vbool _ => .cls ("Bool")
  | .vcls _ => .cls ("type")
  | .vobj tyName => .cls tyName

/-- The executable body carried by a calculator: a user-supplied function,
or a class/annotated object (as in the auto-synthesized option of
`__calculate_missing_values`, whose first argument is `self.types[k]`). -/
inductive CalcBody where
  | func (tag : String)
  | ofAnn (a : Ann)
  deriving DecidableEq

/-- Modelled from the spec: the `ConfigFunction` class imported by
`parser.py` from `.config_function`, whose source file is not included
under `src/`.  Spec §3 "Calculator": target attribute name(s), an option
name, an append flag, and an executable body.  The parser reads only
`option_name` and `is_append` and constructs one in the resolver with the
annotated class as the body. -/
structure ConfigFunction where
  config_names : String
  option_name : String
  is_append : Bool
  body : CalcBody
  deriving DecidableEq

/-- A Python class: the universal root `object`, or a class with direct
bases, `__annotations__`, the attribute entries of `__dict__`, and the
optional `__dict__['_calculators']` table (kept as a separate field: its
key starts with `_`, so the `__dict__` value loop always skips it).
Bases are embedded structurally, so a diamond appears as a duplicated
subtree, matching the duplicate entries the collector keeps. -/
inductive PyClass where
  | obj
  | mk (name : String) (bases : List PyClass)
      (annots : List (String × Ann))
      (dict : List (String × PyVal))
      (calculators : Option (List (String × List ConfigFunction)))

mutual
/-- Size of a class tree, used for the termination of the breadth-first
walk. -/
def csize : PyClass → Nat
  | .obj => 1
  | .mk _ bases _ _ _ => 1 + csizeL bases
/-- Sum of sizes of a list of class trees. -/
def csizeL : List PyClass → Nat
  | [] => 0
  | c :: cs => csize c + csizeL cs
end

/-- Decides `b == object` negatively: true exactly when a base is not the
universal root. -/
def isNotObject : PyClass → Bool
  | .obj => false
  | .mk _ _ _ _ _ => true

/-- The inner filter of the walk: the direct bases of a class with the
universal root `object` dropped (`if b == object: continue`). -/
def basesNonObject : PyClass → List PyClass
  | .obj => []
  | .mk _ bases _ _ _ => bases.filter isNotObject

/-- Builds `next_level` as the two nested `for` loops do: the
concatenation of the filtered bases of the classes of the current level,
in order. -/
def nextLevelFlat : List PyClass → List PyClass
  | [] => []
  | c :: cs => basesNonObject c ++ nextLevelFlat cs

/-- The `while len(level) > 0` loop of `_get_base_classes`: `classes`
accumulates, `next_level` is rebuilt from the current level each
iteration. -/
def gbcLoop (classes level : List PyClass) : List PyClass :=
  match level with
  | [] => classes
  | c :: rest =>
    let next_level := (c :: rest).foldl (fun acc x => acc ++ basesNonObject x) []
    gbcLoop (classes ++ next_level) next_level
termination_by csizeL level
decreasing_by
  have happ : ∀ l₁ l₂ : List PyClass, csizeL (l₁ ++ l₂) = csizeL l₁ + csizeL l₂ := by
    intro l₁ l₂
    induction l₁ with
    | nil => simp [csizeL]
    | cons x xs ih => simp [csizeL, ih]; omega
  have hfilter : ∀ (p : PyClass → Bool) (l : List PyClass),
      csizeL (l.filter p) ≤ csizeL l := by
    intro p l
    induction l with
    | nil => simp [csizeL]
    | cons x xs ih =>
      by_cases h : p x = true
      · simp [List.filter, h, csizeL]; omega
      · simp only [List.filter, h]
        simp [csizeL]; omega
  have hbases : ∀ x : PyClass, csizeL (basesNonObject x) < csize x := by
    intro x
    cases x with
    | obj => simp [basesNonObject, csizeL, csize]
    | mk n bs a d cal =>
      have h := hfilter isNotObject bs
      simp only [basesNonObject, csize]
      omega
  have hnext : ∀ l : List PyClass, csizeL (nextLevelFlat l) + l.length ≤ csizeL l := by
    intro l
    induction l with
    | nil => simp [nextLevelFlat, csizeL]
    | cons x xs ih =>
      have h1 := hbases x
      simp only [nextLevelFlat, happ, csizeL, List.length_cons]
      omega
  have hfold : ∀ (l acc : List PyClass),
      l.foldl (fun acc x => acc ++ basesNonObject x) acc = acc ++ nextLevelFlat l := by
    intro l
    induction l with
    | nil => intro acc; simp [nextLevelFlat]
    | cons x xs ih => intro acc; simp [nextLevelFlat, ih, List.append_assoc]
  simp only [hfold, List.nil_append]
  have hcons : ∀ (x : PyClass) (xs : List PyClass),
      csizeL (nextLevelFlat (x :: xs)) < csizeL (x :: xs) := by
    intro x xs
    have h := hnext (x :: xs)
    simp only [List.length_cons] at h
    omega
  exact hcons _ _

/-- Embeds `_get_base_classes` from `parser.py`: breadth-first over direct
bases, `object` excluded, duplicates kept; `classes.reverse()` at the
end. -/
def _get_base_classes (class_ : PyClass) : List PyClass :=
  (gbcLoop [class_] [class_]).reverse

/-- Modelled from the spec: the hierarchy sequence as §4.1 words it — a
breadth-first walk from the concrete type outward via direct supertypes,
excluding the universal root type, collecting every type encountered
level by level with duplicates allowed, and then reversing the collected
order.  This is the spec-side definition compared against the source-side
`_get_base_classes`. -/
def specBfs (level : List PyClass) : List PyClass :=
  match level with
  | [] => []
  | c :: rest => (c :: rest) ++ specBfs (nextLevelFlat (c :: rest))
termination_by csizeL level
decreasing_by
  have happ : ∀ l₁ l₂ : List PyClass, csizeL (l₁ ++ l₂) = csizeL l₁ + csizeL l₂ := by
    intro l₁ l₂
    induction l₁ with
    | nil => simp [csizeL]
    | cons x xs ih => simp [csizeL, ih]; omega
  have hfilter : ∀ (p : PyClass → Bool) (l : List PyClass),
      csizeL (l.filter p) ≤ csizeL l := by
    intro p l
    induction l with
    | nil => simp [csizeL]
    | cons x xs ih =>
      by_cases h : p x = true
      · simp [List.filter, h, csizeL]; omega
      · simp only [List.filter, h]
        simp [csizeL]; omega
  have hbases : ∀ x : PyClass, csizeL (basesNonObject x) < csize x := by
    intro x
    cases x with
    | obj => simp [basesNonObject, csizeL, csize]
    | mk n bs a d cal =>
      have h := hfilter isNotObject bs
      simp only [basesNonObject, csize]
      omega
  have hnext : ∀ l : List PyClass, csizeL (nextLevelFlat l) + l.length ≤ csizeL l := by
    intro l
    induction l with
    | nil => simp [nextLevelFlat, csizeL]
    | cons x xs ih =>
      have h1 := hbases x
      simp only [nextLevelFlat, happ, csizeL, List.length_cons]
      omega
  have hcons : ∀ (x : PyClass) (xs : List PyClass),
      csizeL (nextLevelFlat (x :: xs)) < csizeL (x :: xs) := by
    intro x xs
    have h := hnext (x :: xs)
    simp only [List.length_cons] at h
    omega
  exact hcons _ _

/-- Modelled from the spec: "most ancestral types come first and the
concrete (most derived) type comes last" — the reversed breadth-first
collection, starting from the singleton level holding the concrete
type. -/
def specHierarchySequence (concreteType : PyClass) : List PyClass :=
  (specBfs [concreteType]).reverse

/-! ### Python dictionaries as association lists -/

/-- Dictionary lookup `d[k]`, as an `Option`. -/
def dget {α : Type} : List (String × α) → String → Option α
  | [], _ => Option.none
  | (k', v) :: rest, k => if k' == k then some v else dget rest k

/-- Dictionary membership `k in d`. -/
def dmem {α : Type} (d : List (String × α)) (k : String) : Bool :=
  (dget d k).isSome

/-- Dictionary assignment `d[k] = v` with Python semantics: an existing
key keeps its position and its value is replaced; otherwise the pair is
appended at the end. -/
def dset {α : Type} : List (String × α) → String → α → List (String × α)
  | [], k, v => [(k, v)]
  | (k', v') :: rest, k, v =>
    if k' == k then (k', v) :: rest else (k', v') :: dset rest k v

/-! ### The `Parser` state and collection steps -/

/-- Embeds `RESERVED = {'calc', 'list'}`. -/
def RESERVED : List String := ["calc", "list"]

/-- Embeds `Parser.is_valid`: a key is invalid when it starts with `_` or
is a reserved word.  (`key.startswith('_')` is a one-character prefix
test, embedded as a test on the first character.) -/
def is_valid (key : String) : Bool :=
  if key.data.head? = some ('_') then false
  else if RESERVED.contains key then false
  else true

/-- The four registries of a `Parser`:
`values : Dict[str, any]`, `types : Dict[str, Type]`,
`options : Dict[str, OrderedDict[str, ConfigFunction]]`,
`list_appends : Dict[str, List[ConfigFunction]]`. -/
structure ParserState where
  values : List (String × PyVal)
  types : List (String × Ann)
  options : List (String × List (String × ConfigFunction))
  list_appends : List (String × List ConfigFunction)

/-- The registries a fresh `Parser.__init__` starts from. -/
def emptyState : ParserState := ⟨[], [], [], []⟩

/-- Embeds `Parser.__collect_value`: skip invalid keys; otherwise always
set `values[k] = v` and, only when `k` is absent from `types`, set
`types[k] = type(v)`. -/
def collect_value (s : ParserState) (k : String) (v : PyVal) : ParserState :=
  if is_valid k then
    let s := { s with values := dset s.values k v }
    if dmem s.types k then s
    else { s with types := dset s.types k (pyTypeOf v) }
  else s

/-- Embeds `Parser.__collect_annotation`: skip invalid keys; otherwise set
`types[k] = v` unconditionally (an existing entry is overwritten). -/
def collect_annotations (s : ParserState) (k : String) (v : Ann) : ParserState :=
  if is_valid k then { s with types := dset s.types k v } else s

/-- Embeds `Parser.__collect_calculator`: append to `list_appends[k]` when
the calculator's `is_append` flag is set (creating the list if absent),
otherwise insert it into the ordered `options[k]` table keyed by its
`option_name` (creating the table if absent). -/
def collect_calculator (s : ParserState) (k : String) (v : ConfigFunction) :
    ParserState :=
  if v.is_append then
    let cur := (dget s.list_appends k).getD []
    { s with list_appends := dset s.list_appends k (cur ++ [v]) }
  else
    let cur := (dget s.options k).getD []
    { s with options := dset s.options k (dset cur v.option_name v) }

/-- One class of the first `__init__` loop: its `__annotations__` entries
through `__collect_annotation`, then its `__dict__` entries through
`__collect_value`.  (`object` contributes nothing: it has no annotations
and every key of its `__dict__` starts with `_`, hence is skipped.) -/
def processClass (s : ParserState) (c : PyClass) : ParserState :=
  match c with
  | .obj => s
  | .mk _ _ annots dict _ =>
    let s := annots.foldl (fun s kv => collect_annotations s kv.1 kv.2) s
    dict.foldl (fun s kv => collect_value s kv.1 kv.2) s

/-- One class of the second `__init__` loop: when the class has a
`_calculators` table, for each of its keys `assert k in self.types, k`
(the assertion message is the key) and then collect each of its
calculators. -/
def processClassCalcs (s : ParserState) (c : PyClass) :
    Except String ParserState :=
  match c with
  | .obj => Except.ok s
  | .mk _ _ _ _ calculators =>
    match calculators with
    | Option.none => Except.ok s
    | some table =>
      table.foldlM (fun s kcl =>
        if dmem s.types kcl.1 then
          Except.ok (kcl.2.foldl (fun s v => collect_calculator s kcl.1 v) s)
        else Except.error kcl.1) s

/-- The instance-value and override loops of `__init__`:
`assert k in self.types` before every `__collect_value` call. -/
def applyExternal (s : ParserState) (d : List (String × PyVal)) :
    Except String ParserState :=
  d.foldlM (fun s kv =>
    if dmem s.types kv.1 then Except.ok (collect_value s kv.1 kv.2)
    else Except.error ("AssertionError")) s

/-- Embeds `k in self.values and self.values[k] is not None`. -/
def hasConcreteValue (s : ParserState) (k : String) : Bool :=
  match dget s.values k with
  | some PyVal.none => false
  | some _ => true
  | Option.none => false

/-- The body of the `for k in self.types` loop of
`__calculate_missing_values`, for one attribute name `k`. -/
def calc_missing_one (s : ParserState) (k : String) :
    Except String ParserState :=
  if hasConcreteValue s k then Except.ok s
  else if dmem s.list_appends k then Except.ok s
  else if dmem s.options k then
    match (dget s.options k).getD [] with
    | (name, _) :: _ =>
      Except.ok { s with values := dset s.values k (PyVal.vstr name) }
    | [] => Except.error ("StopIteration")
  else
    match dget s.types k with
    | some (Ann.cls c) =>
      Except.ok { s with
        options := dset s.options k
          [(k, ⟨k, k, false, CalcBody.ofAnn (Ann.cls c)⟩)],
        values := dset s.values k (PyVal.vstr k) }
    | some (Ann.generic _) =>
      if dmem s.values k then Except.ok s
      else Except.error ("Cannot compute " ++ k)
    | Option.none => Except.error ("KeyError")

/-- Embeds `Parser.__calculate_missing_values`: the loop over the keys of
`types` (in insertion order; the loop never mutates `types`). -/
def calculate_missing_values (s : ParserState) : Except String ParserState :=
  (s.types.map Prod.fst).foldlM calc_missing_one s

/-- The part of `Parser.__init__` after `_get_base_classes` and before
`__calculate_missing_values`, over an explicit base-to-derived class
list: the annotation/value merge, the calculator pass, the
instance-value pass and the optional override pass. -/
def premergeClasses (classes : List PyClass) (configDict : List (String × PyVal))
    (values : Option (List (String × PyVal))) : Except String ParserState :=
  let s := classes.foldl processClass emptyState
  Except.bind (classes.foldlM processClassCalcs s) (fun s =>
  Except.bind (applyExternal s configDict) (fun s =>
    match values with
    | Option.none => Except.ok s
    | some vs => applyExternal s vs))

/-- Everything `Parser.__init__` does before
`__calculate_missing_values`, for a configuration object of class
`configsClass`. -/
def Parser.premerge (configsClass : PyClass) (configDict : List (String × PyVal))
    (values : Option (List (String × PyVal))) : Except String ParserState :=
  premergeClasses (_get_base_classes configsClass) configDict values

/-- Embeds `Parser.__init__` over an explicit base-to-derived class
list. -/
def initClasses (classes : List PyClass) (configDict : List (String × PyVal))
    (values : Option (List (String × PyVal))) : Except String ParserState :=
  Except.bind (premergeClasses classes configDict values) calculate_missing_values

/-- Embeds `Parser.__init__` for a configuration object of class
`configsClass` with instance `__dict__` `configDict` and optional caller
override mapping `values`. -/
def Parser.init (configsClass : PyClass) (configDict : List (String × PyVal))
    (values : Option (List (String × PyVal))) : Except String ParserState :=
  initClasses (_get_base_classes configsClass) configDict values

/-- The resolved value of attribute `k`, when construction succeeded and
`k` has one. -/
def resolvedValue (r : Except String ParserState) (k : String) : Option PyVal :=
  match r with
  | Except.ok s => dget s.values k
  | Except.error _ => Option.none

/-- The registered type of attribute `k`, when construction succeeded. -/
def resolvedType (r : Except String ParserState) (k : String) : Option Ann :=
  match r with
  | Except.ok s => dget s.types k
  | Except.error _ => Option.none

/-- Whether a registry construction step aborted with an error. -/
def isError (r : Except String ParserState) : Bool :=
  match r with
  | Except.ok _ => false
  | Except.error _ => true

/-- The option table of attribute `k`, when construction succeeded and
`k` has one. -/
def resolvedOptions (r : Except String ParserState) (k : String) :
    Option (List (String × ConfigFunction)) :=
  match r with
  | Except.ok s => dget s.options k
  | Except.error _ => Option.none

/-- The list-append calculators of attribute `k`, when construction
succeeded and `k` has some. -/
def resolvedAppends (r : Except String ParserState) (k : String) :
    Option (List ConfigFunction) :=
  match r with
  | Except.ok s => dget s.list_appends k
  | Except.error _ => Option.none

/-! ### Concrete and parametric hierarchies used by the claims -/

/-- A base class annotating one attribute. -/
def oneAnnBase (k : String) (a : Ann) : PyClass :=
  PyClass.mk ("Base") [PyClass.obj] [(k, a)] [] Option.none

/-- A derived class of `oneAnnBase k a` re-annotating the same attribute
with `b`. -/
def reAnnDerived (k : String) (a b : Ann) : PyClass :=
  PyClass.mk ("Derived") [oneAnnBase k a] [(k, b)] [] Option.none

/-- A single class annotating one attribute, with no values and no
calculators. -/
def oneAnnClass (k : String) (a : Ann) : PyClass :=
  PyClass.mk ("C") [PyClass.obj] [(k, a)] [] Option.none

/-- A single class annotating one attribute and carrying one
`_calculators` entry. -/
def oneCalcClass (k : String) (a : Ann) (ck : String) (cl : List ConfigFunction) :
    PyClass :=
  PyClass.mk ("C") [PyClass.obj] [(k, a)] [] (some [(ck, cl)])

/-- The C4 counterexample class: an attribute annotated with a non-class
type object and explicitly set to `None` at class level. -/
def c4Class : PyClass :=
  PyClass.mk ("C") [PyClass.obj] [(("x"), Ann.generic ("ListInt"))]
    [(("x"), PyVal.none)] Option.none

/-- A two-level hierarchy assigning class-level values to the same
attribute on both levels. -/
def twoValHier (k : String) (v1 v2 : PyVal) : PyClass :=
  PyClass.mk ("Derived")
    [PyClass.mk ("Base") [PyClass.obj] [] [(k, v1)] Option.none]
    [] [(k, v2)] Option.none

/-! ### Lemmas: dictionaries, monadic folds, and small hierarchies -/

@[simp]
theorem exceptBind_ok (a : ParserState) (f : ParserState → Except String ParserState) :
    Except.bind (Except.ok a) f = f a := rfl

@[simp]
theorem exceptBind_error (e : String) (f : ParserState → Except String ParserState) :
    Except.bind (Except.error e) f = Except.error e := rfl

@[simp]
theorem exceptBindOp_ok (a : ParserState) (f : ParserState → Except String ParserState) :
    (Except.ok a : Except String ParserState) >>= f = f a := rfl

@[simp]
theorem exceptBindOp_error (e : String) (f : ParserState → Except String ParserState) :
    (Except.error e : Except String ParserState) >>= f = Except.error e := rfl

@[simp]
theorem exceptPure (a : ParserState) :
    (pure a : Except String ParserState) = Except.ok a := rfl

theorem dget_dset_self {α : Type} (d : List (String × α)) (k : String) (v : α) :
    dget (dset d k v) k = some v := by
  induction d with
  | nil => simp [dset, dget]
  | cons p rest ih =>
    by_cases h : p.1 == k
    · simp [dset, dget, h]
    · simp [dset, dget, h, ih]

theorem dget_dset_ne {α : Type} (d : List (String × α)) (k k' : String) (v : α)
    (h : k ≠ k') : dget (dset d k v) k' = dget d k' := by
  induction d with
  | nil => simp [dset, dget, h]
  | cons p rest ih =>
    by_cases hp : p.1 == k
    · have hp' : p.1 = k := by simpa using hp
      simp [dset, dget, hp, hp', h]
    · simp [dset, dget, hp, ih]

theorem dmem_dset_self {α : Type} (d : List (String × α)) (k : String) (v : α) :
    dmem (dset d k v) k = true := by
  simp [dmem, dget_dset_self]

theorem dmem_dset_mono {α : Type} (d : List (String × α)) (k k' : String) (v : α)
    (h : dmem d k = true) : dmem (dset d k' v) k = true := by
  by_cases hk : k' = k
  · subst hk; simp [dmem, dget_dset_self]
  · simpa [dmem, dget_dset_ne d k' k v hk] using h

theorem dmem_dset_ne {α : Type} (d : List (String × α)) (k k' : String) (v : α)
    (h : k ≠ k') : dmem (dset d k v) k' = dmem d k' := by
  simp [dmem, dget_dset_ne d k k' v h]

theorem dmem_iff_mem_keys {α : Type} (d : List (String × α)) (k : String) :
    dmem d k = true ↔ k ∈ d.map Prod.fst := by
  induction d with
  | nil => simp [dmem, dget]
  | cons p rest ih =>
    by_cases h : p.1 == k
    · have h' : p.1 = k := by simpa using h
      simp [dmem, dget, h, h']
    · have h' : ¬ p.1 = k := by simpa using h
      simp only [dmem, dget, h, Bool.false_eq_true, if_false, List.map_cons,
        List.mem_cons]
      constructor
      · intro hh
        exact Or.inr (ih.mp hh)
      · intro hh
        cases hh with
        | inl he => exact absurd he.symm h'
        | inr hm => exact ih.mpr hm

theorem gbc_single (n : String) (a : List (String × Ann)) (d : List (String × PyVal))
    (cal : Option (List (String × List ConfigFunction))) :
    _get_base_classes (PyClass.mk n [PyClass.obj] a d cal)
      = [PyClass.mk n [PyClass.obj] a d cal] := by
  simp [_get_base_classes, gbcLoop, basesNonObject, List.filter, isNotObject]

theorem gbc_two (n0 n : String) (a0 a : List (String × Ann)) (d0 d : List (String × PyVal))
    (c0 cal : Option (List (String × List ConfigFunction))) :
    _get_base_classes (PyClass.mk n [PyClass.mk n0 [PyClass.obj] a0 d0 c0] a d cal)
      = [PyClass.mk n0 [PyClass.obj] a0 d0 c0,
         PyClass.mk n [PyClass.mk n0 [PyClass.obj] a0 d0 c0] a d cal] := by
  simp [_get_base_classes, gbcLoop, basesNonObject, List.filter, isNotObject]

theorem csizeL_append (l₁ l₂ : List PyClass) :
    csizeL (l₁ ++ l₂) = csizeL l₁ + csizeL l₂ := by
  induction l₁ with
  | nil => simp [csizeL]
  | cons x xs ih => simp [csizeL, ih]; omega

theorem csizeL_filter_le (p : PyClass → Bool) (l : List PyClass) :
    csizeL (l.filter p) ≤ csizeL l := by
  induction l with
  | nil => simp [csizeL]
  | cons x xs ih =>
    by_cases h : p x = true
    · simp [List.filter, h, csizeL]; omega
    · simp only [List.filter, h]
      simp [csizeL]; omega

theorem csizeL_basesNonObject_lt (x : PyClass) :
    csizeL (basesNonObject x) < csize x := by
  cases x with
  | obj => simp [basesNonObject, csizeL, csize]
  | mk n bs a d cal =>
    have h := csizeL_filter_le isNotObject bs
    simp only [basesNonObject, csize]
    omega

theorem csizeL_nextLevelFlat (l : List PyClass) :
    csizeL (nextLevelFlat l) + l.length ≤ csizeL l := by
  induction l with
  | nil => simp [nextLevelFlat, csizeL]
  | cons x xs ih =>
    have h1 := csizeL_basesNonObject_lt x
    simp only [nextLevelFlat, csizeL_append, csizeL, List.length_cons]
    omega

theorem csizeL_nextLevelFlat_cons_lt (x : PyClass) (xs : List PyClass) :
    csizeL (nextLevelFlat (x :: xs)) < csizeL (x :: xs) := by
  have h := csizeL_nextLevelFlat (x :: xs)
  simp only [List.length_cons] at h
  omega

theorem foldl_append_eq_nextLevelFlat (l acc : List PyClass) :
    l.foldl (fun acc x => acc ++ basesNonObject x) acc = acc ++ nextLevelFlat l := by
  induction l generalizing acc with
  | nil => simp [nextLevelFlat]
  | cons x xs ih => simp [nextLevelFlat, ih, List.append_assoc]

theorem gbcLoop_eq_specBfs_aux (n : Nat) :
    ∀ (classes level : List PyClass), csizeL level ≤ n →
      gbcLoop classes level = classes ++ specBfs (nextLevelFlat level) := by
  induction n with
  | zero =>
    intro classes level h
    match level with
    | [] => simp [gbcLoop, nextLevelFlat, specBfs]
    | c :: rest =>
      exfalso
      have h1 : 1 ≤ csize c := by cases c <;> simp [csize]
      simp [csizeL] at h
      omega
  | succ n ih =>
    intro classes level h
    match level with
    | [] => simp [gbcLoop, nextLevelFlat, specBfs]
    | c :: rest =>
      rw [gbcLoop]
      simp only [foldl_append_eq_nextLevelFlat, List.nil_append]
      have hlt := csizeL_nextLevelFlat_cons_lt c rest
      rw [ih (classes ++ nextLevelFlat (c :: rest)) (nextLevelFlat (c :: rest))
        (by omega)]
      cases hN : nextLevelFlat (c :: rest) with
      | nil => simp [specBfs, nextLevelFlat]
      | cons c' rest' => rw [specBfs]; simp [List.append_assoc]

/-- C9: for every concrete type, `_get_base_classes` returns exactly the
sequence the spec describes — a breadth-first walk from the concrete type
over direct supertypes, excluding the universal root type, keeping
duplicates, and then reversing, so the most ancestral types come first
and the concrete type comes last. -/
theorem C9_get_base_classes_refines_spec (concreteType : PyClass) :
    _get_base_classes concreteType = specHierarchySequence concreteType := by
  unfold _get_base_classes specHierarchySequence
  rw [gbcLoop_eq_specBfs_aux (csizeL [concreteType]) [concreteType] [concreteType]
    le_rfl]
  congr 1
  conv_rhs => rw [specBfs]

/-! ### Claim C1: which TypeRecord declaration wins -/

/-- C1 counterexample: with `Base` annotating `x : int` and `Derived(Base)`
re-annotating `x : str`, the merge pass records `str` — the most derived
declaration — not the most ancestral one, refuting the claim that a
registered type is never overwritten further down the traversal. -/
theorem C1_counterexample :
    resolvedType (Parser.premerge
      (reAnnDerived ("x") (Ann.cls ("int")) (Ann.cls ("str"))) [] Option.none) ("x")
      = some (Ann.cls ("str"))
    ∧ Ann.cls ("str") ≠ Ann.cls ("int") := by
  have hg : _get_base_classes (reAnnDerived ("x") (Ann.cls ("int")) (Ann.cls ("str")))
      = [oneAnnBase ("x") (Ann.cls ("int")),
         reAnnDerived ("x") (Ann.cls ("int")) (Ann.cls ("str"))] := by
    simp [reAnnDerived, oneAnnBase, gbc_two]
  constructor
  · unfold Parser.premerge
    rw [hg]
    rfl
  · decide

/-- C1 (amended): the annotation resolver writes unconditionally, so for
an attribute annotated on an ancestor and re-annotated on a descendant,
the TypeRecord entry produced by the merge pass is the declaration from
the most derived type — the last write in base-to-derived traversal
wins. -/
theorem C1_last_declaration_wins (k : String) (a b : Ann)
    (h : is_valid k = true) :
    resolvedType (Parser.premerge (reAnnDerived k a b) [] Option.none) k = some b := by
  have hg : _get_base_classes (reAnnDerived k a b)
      = [oneAnnBase k a, reAnnDerived k a b] := by
    simp [reAnnDerived, oneAnnBase, gbc_two]
  unfold Parser.premerge
  rw [hg]
  simp [premergeClasses, processClass, oneAnnBase, reAnnDerived, emptyState,
    collect_annotations, h, processClassCalcs, applyExternal, resolvedType,
    dset, dget, List.foldlM_nil, List.foldlM_cons]

/-- C1 witness: the amended theorem applied at `x` re-annotated from
`int` to `str`. -/
theorem C1_last_declaration_wins_witness :
    is_valid ("x") = true
    ∧ resolvedType (Parser.premerge
        (reAnnDerived ("x") (Ann.cls ("int")) (Ann.cls ("str"))) [] Option.none) ("x")
      = some (Ann.cls ("str")) :=
  ⟨rfl, C1_last_declaration_wins ("x") (Ann.cls ("int")) (Ann.cls ("str")) rfl⟩

/-! ### Claim C2: primitive-typed attribute with no value -/

/-- C2 counterexample: `count : int` with no value, no options and no
list-appends does not raise the unresolvable-attribute error — the
`type(self.types[k]) == type` test is true for `int` as for any plain
class, so the resolver synthesizes an option named `count` and resolves
the value to `count`. -/
theorem C2_counterexample :
    Parser.init (oneAnnClass ("count") (Ann.cls ("int"))) [] Option.none
      = Except.ok ⟨[(("count"), PyVal.vstr ("count"))],
                   [(("count"), Ann.cls ("int"))],
                   [(("count"), [(("count"),
                      ⟨("count"), ("count"), false, CalcBody.ofAnn (Ann.cls ("int"))⟩)])],
                   []⟩ := by
  have hg : _get_base_classes (oneAnnClass ("count") (Ann.cls ("int")))
      = [oneAnnClass ("count") (Ann.cls ("int"))] := by
    simp [oneAnnClass, gbc_single]
  unfold Parser.init
  rw [hg]
  rfl

/-- C2 (amended): an attribute declared with any plain class type —
primitives like `int` included — and no value, options or list-appends is
not an error: the resolver synthesizes an option named after the
attribute and sets its value to that name.  The fatal
unresolvable-attribute error is raised exactly when the declared type is
not a plain class object (e.g. a generic alias). -/
theorem C2_plain_class_resolves (k c g : String) (h : is_valid k = true) :
    Parser.init (oneAnnClass k (Ann.cls c)) [] Option.none
      = Except.ok ⟨[(k, PyVal.vstr k)], [(k, Ann.cls c)],
                   [(k, [(k, ⟨k, k, false, CalcBody.ofAnn (Ann.cls c)⟩)])], []⟩
    ∧ Parser.init (oneAnnClass k (Ann.generic g)) [] Option.none
      = Except.error ("Cannot compute " ++ k) := by
  have hg1 : _get_base_classes (oneAnnClass k (Ann.cls c))
      = [oneAnnClass k (Ann.cls c)] := by
    simp [oneAnnClass, gbc_single]
  have hg2 : _get_base_classes (oneAnnClass k (Ann.generic g))
      = [oneAnnClass k (Ann.generic g)] := by
    simp [oneAnnClass, gbc_single]
  constructor
  · unfold Parser.init
    rw [hg1]
    simp [initClasses, premergeClasses, processClass, oneAnnClass, emptyState,
      collect_annotations, h, processClassCalcs, applyExternal,
      calculate_missing_values, calc_missing_one, hasConcreteValue, dmem,
      dset, dget, List.foldlM_nil, List.foldlM_cons]
  · unfold Parser.init
    rw [hg2]
    simp [initClasses, premergeClasses, processClass, oneAnnClass, emptyState,
      collect_annotations, h, processClassCalcs, applyExternal,
      calculate_missing_values, calc_missing_one, hasConcreteValue, dmem,
      dset, dget, List.foldlM_nil, List.foldlM_cons]

/-- C2 witness: the amended theorem applied at `count : int` (resolves by
auto-synthesis) and at an attribute with a generic alias type (fatal
error). -/
theorem C2_plain_class_resolves_witness :
    is_valid ("count") = true
    ∧ Parser.init (oneAnnClass ("count") (Ann.cls ("int"))) [] Option.none
      = Except.ok ⟨[(("count"), PyVal.vstr ("count"))],
                   [(("count"), Ann.cls ("int"))],
                   [(("count"), [(("count"),
                      ⟨("count"), ("count"), false, CalcBody.ofAnn (Ann.cls ("int"))⟩)])],
                   []⟩
    ∧ Parser.init (oneAnnClass ("count") (Ann.generic ("ListInt"))) [] Option.none
      = Except.error ("Cannot compute " ++ "count") :=
  ⟨rfl,
   (C2_plain_class_resolves ("count") ("int") ("ListInt") rfl).1,
   (C2_plain_class_resolves ("count") ("int") ("ListInt") rfl).2⟩

/-! ### Claim C6: nested-configuration auto-option -/

/-- C6: an attribute whose declared type is itself a (nested
configuration) class and which has no explicit value and no registered
options gets exactly one synthesized option, named after the attribute,
inserted into its option table, and its resolved value is that same
name. -/
theorem C6_auto_nesting (k c : String) (h : is_valid k = true) :
    resolvedValue (Parser.init (oneAnnClass k (Ann.cls c)) [] Option.none) k
      = some (PyVal.vstr k)
    ∧ resolvedOptions (Parser.init (oneAnnClass k (Ann.cls c)) [] Option.none) k
      = some [(k, ⟨k, k, false, CalcBody.ofAnn (Ann.cls c)⟩)] := by
  have hg : _get_base_classes (oneAnnClass k (Ann.cls c))
      = [oneAnnClass k (Ann.cls c)] := by
    simp [oneAnnClass, gbc_single]
  constructor
  · unfold Parser.init
    rw [hg]
    simp [initClasses, premergeClasses, processClass, oneAnnClass, emptyState,
      collect_annotations, h, processClassCalcs, applyExternal,
      calculate_missing_values, calc_missing_one, hasConcreteValue, dmem,
      dset, dget, List.foldlM_nil, List.foldlM_cons, resolvedValue]
  · unfold Parser.init
    rw [hg]
    simp [initClasses, premergeClasses, processClass, oneAnnClass, emptyState,
      collect_annotations, h, processClassCalcs, applyExternal,
      calculate_missing_values, calc_missing_one, hasConcreteValue, dmem,
      dset, dget, List.foldlM_nil, List.foldlM_cons, resolvedOptions]

/-- C6 witness: the auto-nesting theorem applied at
`encoder : EncoderConfigType`. -/
theorem C6_auto_nesting_witness :
    is_valid ("encoder") = true
    ∧ resolvedValue (Parser.init
        (oneAnnClass ("encoder") (Ann.cls ("EncoderConfigType"))) [] Option.none)
        ("encoder") = some (PyVal.vstr ("encoder"))
    ∧ resolvedOptions (Parser.init
        (oneAnnClass ("encoder") (Ann.cls ("EncoderConfigType"))) [] Option.none)
        ("encoder")
      = some [(("encoder"),
          ⟨("encoder"), ("encoder"), false, CalcBody.ofAnn (Ann.cls ("EncoderConfigType"))⟩)] :=
  ⟨rfl,
   (C6_auto_nesting ("encoder") ("EncoderConfigType") rfl).1,
   (C6_auto_nesting ("encoder") ("EncoderConfigType") rfl).2⟩

/-! ### Claim C5: first-inserted option is the default -/

/-- C5: an attribute with two registered (non-append) options and no
explicit value resolves to the key of the first-inserted option,
whatever the two option names are. -/
theorem C5_first_option_default (k : String) (a : Ann) (c1 c2 : ConfigFunction)
    (h : is_valid k = true) (h1 : c1.is_append = false) (h2 : c2.is_append = false) :
    resolvedValue (Parser.init (oneCalcClass k a k [c1, c2]) [] Option.none) k
      = some (PyVal.vstr c1.option_name) := by
  have hg : _get_base_classes (oneCalcClass k a k [c1, c2])
      = [oneCalcClass k a k [c1, c2]] := by
    simp [oneCalcClass, gbc_single]
  unfold Parser.init
  rw [hg]
  by_cases hn : c1.option_name = c2.option_name
  · simp [initClasses, premergeClasses, processClass, oneCalcClass, emptyState,
      collect_annotations, h, processClassCalcs, collect_calculator, h1, h2,
      applyExternal, calculate_missing_values, calc_missing_one,
      hasConcreteValue, dmem, dset, dget, hn, List.foldlM_nil, List.foldlM_cons,
      resolvedValue]
  · have hb : (c1.option_name == c2.option_name) = false := by
      simpa using hn
    simp [initClasses, premergeClasses, processClass, oneCalcClass, emptyState,
      collect_annotations, h, processClassCalcs, collect_calculator, h1, h2,
      applyExternal, calculate_missing_values, calc_missing_one,
      hasConcreteValue, dmem, dset, dget, hb, List.foldlM_nil, List.foldlM_cons,
      resolvedValue]

/-- C5 witness: the first-option-default theorem applied at `mode : str`
with options `fast` then `slow`. -/
theorem C5_first_option_default_witness :
    is_valid ("mode") = true
    ∧ resolvedValue (Parser.init (oneCalcClass ("mode") (Ann.cls ("str")) ("mode")
        [⟨("mode"), ("fast"), false, CalcBody.func ("f")⟩,
         ⟨("mode"), ("slow"), false, CalcBody.func ("g")⟩]) [] Option.none) ("mode")
      = some (PyVal.vstr ("fast")) :=
  ⟨rfl, C5_first_option_default ("mode") (Ann.cls ("str"))
    ⟨("mode"), ("fast"), false, CalcBody.func ("f")⟩
    ⟨("mode"), ("slow"), false, CalcBody.func ("g")⟩ rfl rfl rfl⟩

/-! ### Claim C7: ValueRecord precedence -/

theorem hasConcreteValue_some (s : ParserState) (k : String) (v : PyVal)
    (hv : dget s.values k = some v) (hne : v ≠ PyVal.none) :
    hasConcreteValue s k = true := by
  cases v with
  | none => exact absurd rfl hne
  | vint n => simp [hasConcreteValue, hv]
  | vstr t => simp [hasConcreteValue, hv]
  | vbool b => simp [hasConcreteValue, hv]
  | vcls n => simp [hasConcreteValue, hv]
  | vobj t => simp [hasConcreteValue, hv]

/-- C7: class-level values are overwritten in base-to-derived order (so a
descendant's value beats an ancestor's), an instance-level value then
overrides any class-level value, and a caller-supplied override value
overrides all of the above. -/
theorem C7_value_precedence (k : String) (v1 v2 v3 v4 : PyVal)
    (h : is_valid k = true) (h2 : v2 ≠ PyVal.none) (h3 : v3 ≠ PyVal.none)
    (h4 : v4 ≠ PyVal.none) :
    resolvedValue (Parser.init (twoValHier k v1 v2) [] Option.none) k = some v2
    ∧ resolvedValue (Parser.init (twoValHier k v1 v2) [(k, v3)] Option.none) k
      = some v3
    ∧ resolvedValue (Parser.init (twoValHier k v1 v2) [(k, v3)] (some [(k, v4)])) k
      = some v4 := by
  have hg : _get_base_classes (twoValHier k v1 v2)
      = [PyClass.mk ("Base") [PyClass.obj] [] [(k, v1)] Option.none,
         twoValHier k v1 v2] := by
    simp [twoValHier, gbc_two]
  refine ⟨?_, ?_, ?_⟩
  · have hcv : hasConcreteValue ⟨[(k, v2)], [(k, pyTypeOf v1)], [], []⟩ k = true := by
      apply hasConcreteValue_some _ _ v2 _ h2
      simp [dget]
    unfold Parser.init
    rw [hg]
    simp [initClasses, premergeClasses, processClass, twoValHier, emptyState,
      collect_value, h, processClassCalcs, applyExternal,
      calculate_missing_values, calc_missing_one, hcv, dmem, dset, dget,
      List.foldlM_nil, List.foldlM_cons, resolvedValue]
  · have hcv : hasConcreteValue ⟨[(k, v3)], [(k, pyTypeOf v1)], [], []⟩ k = true := by
      apply hasConcreteValue_some _ _ v3 _ h3
      simp [dget]
    unfold Parser.init
    rw [hg]
    simp [initClasses, premergeClasses, processClass, twoValHier, emptyState,
      collect_value, h, processClassCalcs, applyExternal,
      calculate_missing_values, calc_missing_one, hcv, dmem, dset, dget,
      List.foldlM_nil, List.foldlM_cons, resolvedValue]
  · have hcv : hasConcreteValue ⟨[(k, v4)], [(k, pyTypeOf v1)], [], []⟩ k = true := by
      apply hasConcreteValue_some _ _ v4 _ h4
      simp [dget]
    unfold Parser.init
    rw [hg]
    simp [initClasses, premergeClasses, processClass, twoValHier, emptyState,
      collect_value, h, processClassCalcs, applyExternal,
      calculate_missing_values, calc_missing_one, hcv, dmem, dset, dget,
      List.foldlM_nil, List.foldlM_cons, resolvedValue]

/-- C7 witness: the precedence theorem applied at `lr` with class values
1 and 2, instance value 3 and override value 4. -/
theorem C7_value_precedence_witness :
    resolvedValue (Parser.init (twoValHier ("lr") (PyVal.vint 1) (PyVal.vint 2))
      [] Option.none) ("lr") = some (PyVal.vint 2)
    ∧ resolvedValue (Parser.init (twoValHier ("lr") (PyVal.vint 1) (PyVal.vint 2))
      [(("lr"), PyVal.vint 3)] Option.none) ("lr") = some (PyVal.vint 3)
    ∧ resolvedValue (Parser.init (twoValHier ("lr") (PyVal.vint 1) (PyVal.vint 2))
      [(("lr"), PyVal.vint 3)] (some [(("lr"), PyVal.vint 4)])) ("lr")
      = some (PyVal.vint 4) :=
  C7_value_precedence ("lr") (PyVal.vint 1) (PyVal.vint 2) (PyVal.vint 3)
    (PyVal.vint 4) rfl (by decide) (by decide) (by decide)

/-! ### Claim C8: calculator registration precondition -/

/-- C8: a calculator registered under a key absent from `types` makes
registration fail with the declaration assertion (whose message is the
key); under a declared key it succeeds, appending to the list-append
table when the append flag is set and inserting into the option table
otherwise. -/
theorem C8_calculator_precondition (k' ck : String) (a : Ann) (cf : ConfigFunction)
    (h : is_valid k' = true) :
    (ck ≠ k' → Parser.init (oneCalcClass k' a ck [cf]) [] Option.none
        = Except.error ck)
    ∧ (cf.is_append = true → Parser.init (oneCalcClass k' a k' [cf]) [] Option.none
        = Except.ok ⟨[], [(k', a)], [], [(k', [cf])]⟩)
    ∧ (cf.is_append = false → Parser.init (oneCalcClass k' a k' [cf]) [] Option.none
        = Except.ok ⟨[(k', PyVal.vstr cf.option_name)], [(k', a)],
                     [(k', [(cf.option_name, cf)])], []⟩) := by
  have hg : ∀ ck2 cl, _get_base_classes (oneCalcClass k' a ck2 cl)
      = [oneCalcClass k' a ck2 cl] := by
    intro ck2 cl
    simp [oneCalcClass, gbc_single]
  refine ⟨?_, ?_, ?_⟩
  · intro hck
    have hb : (k' == ck) = false := by
      simpa using (Ne.symm hck)
    unfold Parser.init
    rw [hg]
    simp [initClasses, premergeClasses, processClass, oneCalcClass, emptyState,
      collect_annotations, h, processClassCalcs, dmem, dset, dget, hb,
      List.foldlM_nil, List.foldlM_cons]
  · intro hap
    unfold Parser.init
    rw [hg]
    simp [initClasses, premergeClasses, processClass, oneCalcClass, emptyState,
      collect_annotations, h, processClassCalcs, collect_calculator, hap,
      applyExternal, calculate_missing_values, calc_missing_one,
      hasConcreteValue, dmem, dset, dget, List.foldlM_nil, List.foldlM_cons]
  · intro hap
    unfold Parser.init
    rw [hg]
    simp [initClasses, premergeClasses, processClass, oneCalcClass, emptyState,
      collect_annotations, h, processClassCalcs, collect_calculator, hap,
      applyExternal, calculate_missing_values, calc_missing_one,
      hasConcreteValue, dmem, dset, dget, List.foldlM_nil, List.foldlM_cons]

/-- C8 witness: the registration theorem applied to a calculator keyed by
the undeclared `threshold` (declaration error), to an append calculator
on the declared `a`, and to an option calculator on the declared `a`. -/
theorem C8_calculator_precondition_witness :
    Parser.init (oneCalcClass ("a") (Ann.cls ("int")) ("threshold")
        [⟨("t"), ("fast"), false, CalcBody.func ("f")⟩]) [] Option.none
      = Except.error ("threshold")
    ∧ Parser.init (oneCalcClass ("a") (Ann.cls ("int")) ("a")
        [⟨("a"), ("app"), true, CalcBody.func ("f")⟩]) [] Option.none
      = Except.ok ⟨[], [(("a"), Ann.cls ("int"))], [],
                   [(("a"), [⟨("a"), ("app"), true, CalcBody.func ("f")⟩])]⟩
    ∧ Parser.init (oneCalcClass ("a") (Ann.cls ("int")) ("a")
        [⟨("a"), ("fast"), false, CalcBody.func ("f")⟩]) [] Option.none
      = Except.ok ⟨[(("a"), PyVal.vstr ("fast"))], [(("a"), Ann.cls ("int"))],
                   [(("a"), [(("fast"), ⟨("a"), ("fast"), false, CalcBody.func ("f")⟩)])],
                   []⟩ :=
  ⟨(C8_calculator_precondition ("a") ("threshold") (Ann.cls ("int"))
      ⟨("t"), ("fast"), false, CalcBody.func ("f")⟩ rfl).1 (by decide),
   (C8_calculator_precondition ("a") ("a") (Ann.cls ("int"))
      ⟨("a"), ("app"), true, CalcBody.func ("f")⟩ rfl).2.1 rfl,
   (C8_calculator_precondition ("a") ("a") (Ann.cls ("int"))
      ⟨("a"), ("fast"), false, CalcBody.func ("f")⟩ rfl).2.2 rfl⟩

/-! ### Claims C3 and C10: invalid names and the presence assertion -/

theorem collect_value_types_ne (s : ParserState) (k k' : String) (v : PyVal)
    (hne : k' ≠ k) : dmem (collect_value s k' v).types k = dmem s.types k := by
  unfold collect_value
  by_cases hv : is_valid k' = true
  · simp only [hv, if_true]
    by_cases hm : dmem s.types k' = true
    · simp [hm]
    · simp only [Bool.not_eq_true] at hm
      simp [hm, dmem_dset_ne s.types k' k _ hne]
  · simp only [Bool.not_eq_true] at hv
    simp [hv]

theorem collect_value_invalid_absent (s : ParserState) (k k' : String) (v : PyVal)
    (hk : is_valid k = false) (hs : dmem s.types k = false) :
    dmem (collect_value s k' v).types k = false := by
  by_cases hv : is_valid k' = true
  · have hne : k' ≠ k := by
      intro he
      rw [he, hk] at hv
      exact Bool.noConfusion hv
    rw [collect_value_types_ne s k k' v hne]
    exact hs
  · simp only [Bool.not_eq_true] at hv
    simpa [collect_value, hv] using hs

theorem collect_annotations_invalid_absent (s : ParserState) (k k' : String) (v : Ann)
    (hk : is_valid k = false) (hs : dmem s.types k = false) :
    dmem (collect_annotations s k' v).types k = false := by
  by_cases hv : is_valid k' = true
  · have hne : k' ≠ k := by
      intro he
      rw [he, hk] at hv
      exact Bool.noConfusion hv
    simpa [collect_annotations, hv, dmem_dset_ne s.types k' k v hne] using hs
  · simp only [Bool.not_eq_true] at hv
    simpa [collect_annotations, hv] using hs

theorem processClass_invalid_absent (s : ParserState) (c : PyClass) (k : String)
    (hk : is_valid k = false) (hs : dmem s.types k = false) :
    dmem (processClass s c).types k = false := by
  cases c with
  | obj => simpa [processClass] using hs
  | mk n bs annots dict cal =>
    simp only [processClass]
    have hann : ∀ (l : List (String × Ann)) (s0 : ParserState),
        dmem s0.types k = false →
        dmem (l.foldl (fun s kv => collect_annotations s kv.1 kv.2) s0).types k
          = false := by
      intro l
      induction l with
      | nil => intro s0 h0; simpa using h0
      | cons p rest ih =>
        intro s0 h0
        simp only [List.foldl_cons]
        exact ih _ (collect_annotations_invalid_absent s0 k p.1 p.2 hk h0)
    have hval : ∀ (l : List (String × PyVal)) (s0 : ParserState),
        dmem s0.types k = false →
        dmem (l.foldl (fun s kv => collect_value s kv.1 kv.2) s0).types k = false := by
      intro l
      induction l with
      | nil => intro s0 h0; simpa using h0
      | cons p rest ih =>
        intro s0 h0
        simp only [List.foldl_cons]
        exact ih _ (collect_value_invalid_absent s0 k p.1 p.2 hk h0)
    exact hval dict _ (hann annots s hs)

theorem merge_invalid_absent (cs : List PyClass) (k : String)
    (hk : is_valid k = false) :
    ∀ (s : ParserState), dmem s.types k = false →
      dmem (cs.foldl processClass s).types k = false := by
  induction cs with
  | nil => intro s hs; simpa using hs
  | cons c rest ih =>
    intro s hs
    simp only [List.foldl_cons]
    exact ih _ (processClass_invalid_absent s c k hk hs)

theorem applyExternal_absent_error (d : List (String × PyVal)) :
    ∀ (s : ParserState) (k : String), k ∈ d.map Prod.fst →
      dmem s.types k = false →
      applyExternal s d = Except.error ("AssertionError") := by
  induction d with
  | nil =>
    intro s k hmem _
    simp at hmem
  | cons p rest ih =>
    intro s k hmem hs
    simp only [List.map_cons, List.mem_cons] at hmem
    unfold applyExternal
    rw [List.foldlM_cons]
    by_cases hm : dmem s.types p.1 = true
    · have hne : p.1 ≠ k := by
        intro he
        rw [he, hs] at hm
        exact Bool.noConfusion hm
      have hmem' : k ∈ rest.map Prod.fst := by
        cases hmem with
        | inl he => exact absurd he.symm hne
        | inr hr => exact hr
      have hs' : dmem (collect_value s p.1 p.2).types k = false := by
        rw [collect_value_types_ne s k p.1 p.2 hne]
        exact hs
      simp only [hm, if_true, exceptBindOp_ok]
      exact ih (collect_value s p.1 p.2) k hmem' hs'
    · simp only [Bool.not_eq_true] at hm
      simp [hm]

/-- C3 counterexample: an invalid (underscore-prefixed) key in the
configuration object's instance dictionary is not silently skipped in
merge step 4 — registry construction aborts with the presence assertion,
refuting the claim for steps 4 and 5. -/
theorem C3_counterexample :
    Parser.init (oneAnnClass ("a") (Ann.cls ("int"))) [(("_x"), PyVal.vint 1)]
      Option.none = Except.error ("AssertionError") := by
  have hg : _get_base_classes (oneAnnClass ("a") (Ann.cls ("int")))
      = [oneAnnClass ("a") (Ann.cls ("int"))] := by
    simp [oneAnnClass, gbc_single]
  unfold Parser.init
  rw [hg]
  rfl

/-- C3 (amended): an invalid attribute name is silently skipped only in
merge step 2 (`__collect_value` returns without writing); in steps 4
and 5 the presence assertion runs first, and because the
validity-filtered merge never lets an invalid name into `types`, a write
of an invalid name there aborts with an assertion failure instead of
being skipped. -/
theorem C3_invalid_name_handling (s : ParserState) (k : String) (v : PyVal)
    (cs : List PyClass) (d : List (String × PyVal))
    (hk : is_valid k = false) :
    collect_value s k v = s
    ∧ dmem (cs.foldl processClass emptyState).types k = false
    ∧ (k ∈ d.map Prod.fst →
        applyExternal (cs.foldl processClass emptyState) d
          = Except.error ("AssertionError")) := by
  have habs : dmem (cs.foldl processClass emptyState).types k = false :=
    merge_invalid_absent cs k hk emptyState (by rfl)
  refine ⟨?_, habs, ?_⟩
  · simp [collect_value, hk]
  · intro hmem
    exact applyExternal_absent_error d _ k hmem habs

/-- C3 witness: the amended theorem applied at the invalid name `_x`
against a merged single-class hierarchy declaring only `a`. -/
theorem C3_invalid_name_handling_witness :
    collect_value emptyState ("_x") (PyVal.vint 1) = emptyState
    ∧ dmem (([oneAnnClass ("a") (Ann.cls ("int"))]).foldl processClass
        emptyState).types ("_x") = false
    ∧ applyExternal (([oneAnnClass ("a") (Ann.cls ("int"))]).foldl processClass
        emptyState) [(("_x"), PyVal.vint 1)] = Except.error ("AssertionError") :=
  have hC := C3_invalid_name_handling emptyState ("_x") (PyVal.vint 1)
    [oneAnnClass ("a") (Ann.cls ("int"))] [(("_x"), PyVal.vint 1)] rfl
  ⟨hC.1, hC.2.1, hC.2.2 (by decide)⟩

/-- C10: a key of the instance-level attribute mapping or of the
caller-supplied override mapping that is not in `types` when the merge
pass reaches it makes the pass abort with an assertion failure — the
presence check runs before the validity filter, so the statement holds
for every key, invalid names included. -/
theorem C10_presence_check_aborts (d : List (String × PyVal)) (s : ParserState)
    (k : String) (hmem : k ∈ d.map Prod.fst) (habs : dmem s.types k = false) :
    applyExternal s d = Except.error ("AssertionError") :=
  applyExternal_absent_error d s k hmem habs

/-- C10 witness: the presence-assertion theorem applied to the invalid
key `_x` against an empty registry. -/
theorem C10_presence_check_aborts_witness :
    applyExternal emptyState [(("_x"), PyVal.vint 1)]
      = Except.error ("AssertionError") :=
  C10_presence_check_aborts [(("_x"), PyVal.vint 1)] emptyState ("_x")
    (by decide) rfl

/-! ### Claim C4: coverage after missing-value resolution -/

theorem hasConcreteValue_dmem (s : ParserState) (k : String)
    (h : hasConcreteValue s k = true) : dmem s.values k = true := by
  unfold hasConcreteValue at h
  unfold dmem
  cases hv : dget s.values k with
  | none => rw [hv] at h; exact Bool.noConfusion h
  | some v => simp [hv]

theorem or3_mono (a b c a' : Bool) (h : (a || b || c) = true)
    (ha : a = true → a' = true) : (a' || b || c) = true := by
  cases a <;> cases b <;> cases c <;> simp_all

theorem or3_mono2 (a b c a' b' : Bool) (h : (a || b || c) = true)
    (ha : a = true → a' = true) (hb : b = true → b' = true) :
    (a' || b' || c) = true := by
  cases a <;> cases b <;> cases c <;> simp_all

theorem calc_missing_one_shape (s s' : ParserState) (k : String)
    (h : calc_missing_one s k = Except.ok s') :
    s'.types = s.types
    ∧ (dmem s'.values k || dmem s'.options k || dmem s'.list_appends k) = true
    ∧ ∀ k₀, (dmem s.values k₀ || dmem s.options k₀ || dmem s.list_appends k₀) = true →
        (dmem s'.values k₀ || dmem s'.options k₀ || dmem s'.list_appends k₀) = true := by
  unfold calc_missing_one at h
  by_cases h1 : hasConcreteValue s k = true
  · rw [if_pos h1] at h
    injection h with h2
    subst h2
    exact ⟨rfl, by simp [hasConcreteValue_dmem s k h1], fun k₀ hp => hp⟩
  · rw [if_neg h1] at h
    by_cases h2 : dmem s.list_appends k = true
    · rw [if_pos h2] at h
      injection h with h3
      subst h3
      exact ⟨rfl, by simp [h2], fun k₀ hp => hp⟩
    · rw [if_neg h2] at h
      by_cases h3 : dmem s.options k = true
      · rw [if_pos h3] at h
        cases hod : (dget s.options k).getD [] with
        | nil => rw [hod] at h; exact Except.noConfusion h
        | cons p rest =>
          obtain ⟨name, cf⟩ := p
          rw [hod] at h
          injection h with h4
          subst h4
          refine ⟨rfl, by simp [dmem_dset_self], ?_⟩
          intro k₀ hp
          exact or3_mono _ _ _ _ hp
            (fun hv => dmem_dset_mono s.values k₀ k _ hv)
      · rw [if_neg h3] at h
        cases hty : dget s.types k with
        | none => rw [hty] at h; exact Except.noConfusion h
        | some a =>
          rw [hty] at h
          cases a with
          | cls c =>
            injection h with h4
            subst h4
            refine ⟨rfl, by simp [dmem_dset_self], ?_⟩
            intro k₀ hp
            exact or3_mono2 _ _ _ _ _ hp
              (fun hv => dmem_dset_mono s.values k₀ k _ hv)
              (fun ho => dmem_dset_mono s.options k₀ k _ ho)
          | generic g =>
            by_cases h4 : dmem s.values k = true
            · rw [if_pos h4] at h
              injection h with h5
              subst h5
              exact ⟨rfl, by simp [h4], fun k₀ hp => hp⟩
            · rw [if_neg h4] at h
              exact Except.noConfusion h

theorem calc_fold (ks : List String) :
    ∀ (s s' : ParserState), ks.foldlM calc_missing_one s = Except.ok s' →
      (∀ k ∈ ks,
        (dmem s'.values k || dmem s'.options k || dmem s'.list_appends k) = true)
      ∧ (∀ k, (dmem s.values k || dmem s.options k || dmem s.list_appends k) = true →
          (dmem s'.values k || dmem s'.options k || dmem s'.list_appends k) = true)
      ∧ s'.types = s.types := by
  induction ks with
  | nil =>
    intro s s' h
    rw [List.foldlM_nil] at h
    injection h with h2
    subst h2
    exact ⟨by intro k hk; simp at hk, fun k hp => hp, rfl⟩
  | cons k ks ih =>
    intro s s' h
    rw [List.foldlM_cons] at h
    cases hstep : calc_missing_one s k with
    | error e =>
      rw [hstep] at h
      simp at h
    | ok s1 =>
      rw [hstep] at h
      simp only [exceptBindOp_ok] at h
      obtain ⟨hty1, hpost, hpres⟩ := calc_missing_one_shape s s1 k hstep
      obtain ⟨hall, hpres2, hty2⟩ := ih s1 s' h
      refine ⟨?_, ?_, ?_⟩
      · intro k₀ hk₀
        rcases List.mem_cons.mp hk₀ with he | hm
        · subst he
          exact hpres2 k₀ hpost
        · exact hall k₀ hm
      · intro k₀ hp
        exact hpres2 k₀ (hpres k₀ hp)
      · rw [hty2, hty1]

/-- C4 counterexample: a class declaring `x` with a non-class annotated
type and an explicit class-level value `None` resolves without a fatal
error, yet leaves `x` with a null value and neither an option-table nor a
list-append entry — refuting the claim that every TypeRecord name ends
with a concrete non-null value or a calculator entry. -/
theorem C4_counterexample :
    Parser.init c4Class [] Option.none
      = Except.ok ⟨[(("x"), PyVal.none)], [(("x"), Ann.generic ("ListInt"))], [], []⟩
    ∧ resolvedValue (Parser.init c4Class [] Option.none) ("x") = some PyVal.none
    ∧ resolvedOptions (Parser.init c4Class [] Option.none) ("x") = Option.none
    ∧ resolvedAppends (Parser.init c4Class [] Option.none) ("x") = Option.none := by
  have hg : _get_base_classes c4Class = [c4Class] := by
    simp [c4Class, gbc_single]
  unfold Parser.init
  rw [hg]
  exact ⟨rfl, rfl, rfl, rfl⟩

/-- C4 (amended): after a missing-value resolution pass completes without
a fatal error, every attribute name present in `types` has an entry in
`values` (possibly the null value, when `None` was supplied explicitly),
or a key in `options`, or a key in `list_appends`. -/
theorem C4_resolution_coverage (cc : PyClass) (d : List (String × PyVal))
    (ov : Option (List (String × PyVal))) (s' : ParserState) (k : String)
    (hinit : Parser.init cc d ov = Except.ok s')
    (hk : dmem s'.types k = true) :
    (dmem s'.values k || dmem s'.options k || dmem s'.list_appends k) = true := by
  unfold Parser.init initClasses at hinit
  cases hpm : premergeClasses (_get_base_classes cc) d ov with
  | error e =>
    rw [hpm] at hinit
    exact Except.noConfusion hinit
  | ok s0 =>
    rw [hpm] at hinit
    simp only [exceptBind_ok] at hinit
    unfold calculate_missing_values at hinit
    obtain ⟨hall, hpres, hty⟩ := calc_fold (s0.types.map Prod.fst) s0 s' hinit
    apply hall
    rw [← dmem_iff_mem_keys]
    rw [hty] at hk
    exact hk

/-- C4 witness: the coverage theorem applied to the resolved registry of
a single class declaring `count : int`. -/
theorem C4_resolution_coverage_witness :
    (dmem (⟨[(("count"), PyVal.vstr ("count"))],
            [(("count"), Ann.cls ("int"))],
            [(("count"), [(("count"),
               ⟨("count"), ("count"), false, CalcBody.ofAnn (Ann.cls ("int"))⟩)])],
            []⟩ : ParserState).values ("count")
     || dmem (⟨[(("count"), PyVal.vstr ("count"))],
            [(("count"), Ann.cls ("int"))],
            [(("count"), [(("count"),
               ⟨("count"), ("count"), false, CalcBody.ofAnn (Ann.cls ("int"))⟩)])],
            []⟩ : ParserState).options ("count")
     || dmem (⟨[(("count"), PyVal.vstr ("count"))],
            [(("count"), Ann.cls ("int"))],
            [(("count"), [(("count"),
               ⟨("count"), ("count"), false, CalcBody.ofAnn (Ann.cls ("int"))⟩)])],
            []⟩ : ParserState).list_appends ("count")) = true :=
  C4_resolution_coverage (oneAnnClass ("count") (Ann.cls ("int"))) [] Option.none
    _ ("count")
    (by
      have hg : _get_base_classes (oneAnnClass ("count") (Ann.cls ("int")))
          = [oneAnnClass ("count") (Ann.cls ("int"))] := by
        simp [oneAnnClass, gbc_single]
      unfold Parser.init
      rw [hg]
      rfl)
    rfl
